import Mathlib

/-!
Shallow embedding of `temprdr.py` (pootle/Python-ds18b20), covering the
components the specification's claims talk about:

* `csvfilewriter` (`__init__`, `startfile`, `writerec`) — the squash-filtered
  CSV writer, modelled by `WriterState`, `initWriter` and `writerec`;
* `gather.writerec` — the fan-out sink, modelled by `gatherWriterec`;
* `rundev.runloop` — one poll worker's scheduling loop, modelled by
  `loopIter` (one pass through the while body) and `runCycles`;
* the `__main__` aggregator drain loop, modelled by `drainLoop` and
  `aggRun`.

Modelling conventions: Python floats are modelled as `ℚ`; a Python value
that may be `None` is an `Option`; code that can raise an exception
returns `Except String _`, the string naming the exception class.
`time.localtime(x).tm_hour` is abstracted as a parameter `hour : ℚ → ℤ`.
The written CSV row is modelled as the list of per-device output fields
(`none` = the blank field written for a `None` entry of `lastvals`,
`some v` = the field `tempform % v`); the numeric rendering itself is
presentation and is not modelled.
-/

/-! ### csvfilewriter -/

/-- State of a `csvfilewriter` instance (the attributes set in `__init__`).
`lastvals` is `none` when the attribute was never created — `__init__`
only creates `self.lastvals` inside `if self.squash:`.  The open file is
abstracted to its name; `startfile`'s freshly created file name is taken
as a parameter of `initWriter` since it comes from the wall clock. -/
structure WriterState where
  devorder : List String
  squash : Bool
  sigchange : ℚ
  lastvals : Option (List (Option ℚ))
  forcewrite : ℚ
  lastwrite : ℚ
  csvfile : Option String
  deriving DecidableEq

/-- The header line `startfile` writes: `'time,%s\n' % ','.join(devorder)`. -/
def headerLine (devorder : List String) : String :=
  "time," ++ String.intercalate "," devorder ++ "\n"

/-- The header test in `__init__`: the first line of the candidate file is
split on commas; continuation needs exactly `len(devorder)+1` fields, the
first stripped field equal to `time`, and the remaining stripped fields
equal to `devorder` in order (the `for`/`else` loop). -/
def headerOk (devorder : List String) (firstline : String) : Bool :=
  let ls := firstline.splitOn ","
  if ls.length = devorder.length + 1 then
    let lss := ls.map String.trim
    lss.head? == some "time" && lss.tail == devorder
  else false

/-- `sorted(self.folder.glob(...))[-1]`: the lexicographically last
candidate `(file name, first line)`; on equal names the later entry wins,
matching the stability of `sorted`. -/
def lastCand : List (String × String) → Option (String × String)
  | [] => none
  | c :: cs => some (cs.foldl (fun acc d => if d.1 < acc.1 then acc else d) c)

/-- Result of `__init__`: the writer state, plus `some h` when a brand-new
file was created with first line `h` (`startfile`), or `none` when an
existing candidate file is continued. -/
structure InitResult where
  st : WriterState
  newHeader : Option String
  deriving DecidableEq

/-- `csvfilewriter.__init__`.  `cands` is the glob result as
`(file name, first line)` pairs; `newname` is the timestamped name
`startfile` would create.  `self.squash = squash != 0`,
`self.sigchange = squash`, `self.lastvals = [999]*len(devorder)` only when
squashing, `self.lastwrite = 0`. -/
def initWriter (devorder : List String) (cands : List (String × String))
    (squash : ℚ) (forcewrite : ℚ) (newname : String) : InitResult :=
  let squashOn : Bool := decide (squash ≠ 0)
  let lastvals : Option (List (Option ℚ)) :=
    if squashOn then some (devorder.map fun _ => some 999) else none
  let cont : Option String :=
    match lastCand cands with
    | none => none
    | some m => if headerOk devorder m.2 then some m.1 else none
  match cont with
  | some fn =>
      ⟨{ devorder := devorder, squash := squashOn, sigchange := squash,
         lastvals := lastvals, forcewrite := forcewrite, lastwrite := 0,
         csvfile := some fn }, none⟩
  | none =>
      ⟨{ devorder := devorder, squash := squashOn, sigchange := squash,
         lastvals := lastvals, forcewrite := forcewrite, lastwrite := 0,
         csvfile := some newname }, some (headerLine devorder)⟩

/-- The significance loop of `writerec`:
`for vi,v in enumerate(vals): if not v is None and abs(v-self.lastvals[vi]) >= self.sigchange: sigchanges=True; break`.
`lvo` is the `lastvals` attribute (`none` = attribute absent).  When `v`
is `None` the `and` short-circuits and `self.lastvals` is never touched;
otherwise a missing attribute raises `AttributeError`, a short list
raises `IndexError`, and a `None` entry raises `TypeError` from the
subtraction. -/
def sigLoop (S : ℚ) (lvo : Option (List (Option ℚ))) :
    List (Option ℚ) → Nat → Except String Bool
  | [], _ => .ok false
  | none :: vs, vi => sigLoop S lvo vs (vi + 1)
  | some v :: vs, vi =>
    match lvo with
    | none => .error "AttributeError: lastvals"
    | some lv =>
      match lv.get? vi with
      | none => .error "IndexError: lastvals"
      | some none => .error "TypeError: float minus None"
      | some (some w) =>
        if |v - w| ≥ S then .ok true else sigLoop S lvo vs (vi + 1)

/-- The update loop inside the write branch:
`for ix, v in enumerate(vals): if not v is None: self.lastvals[ix]=v`,
walked in lockstep with `lastvals`; returns the updated `lastvals` list.
A present value with no matching `lastvals` slot raises `IndexError`. -/
def updLoop : List (Option ℚ) → List (Option ℚ) →
    Except String (List (Option ℚ))
  | [], lvs => .ok lvs
  | some _ :: _, [] => .error "IndexError: lastvals"
  | none :: vs, [] => updLoop vs []
  | v :: vs, lv :: lvs =>
    (updLoop vs lvs).map fun rest => (if v.isSome then v else lv) :: rest

/-- The write branch of `writerec` (`if sigchanges:`): update `lastvals`,
build the output row from the updated `lastvals` (the `vstr=` line sits
inside the update loop, so its final value joins the fully updated list),
append the row, set `lastwrite = tstamp`.  When `vals` is empty the loop
body never ran and the reference to `vstr` raises `NameError`; when the
`lastvals` attribute is absent the first loop iteration raises
`AttributeError` (either at the assignment or at the `vstr` line). -/
def writeStep (s : WriterState) (tstamp : ℚ) (vals : List (Option ℚ)) :
    Except String (WriterState × List (Option ℚ)) :=
  if vals.isEmpty then .error "NameError: vstr"
  else
    match s.lastvals with
    | none => .error "AttributeError: lastvals"
    | some lv =>
      match updLoop vals lv with
      | .error e => .error e
      | .ok lv2 =>
          .ok ({ s with lastvals := some lv2, lastwrite := tstamp }, lv2)

/-- `csvfilewriter.writerec(tstamp, devdata)`.  Returns the new state and
`some row` when a row was appended (`none` = the record was squashed).
`hour` abstracts `time.localtime(·).tm_hour`.  The rotation branch calls
`startfile` (new file, abstracted: the file identity is unused by the
claims) and resets `lastwrite` to `0` before the significance test. -/
def writerec (hour : ℚ → ℤ) (s0 : WriterState) (tstamp : ℚ)
    (devdata : String → Option ℚ) :
    Except String (WriterState × Option (List (Option ℚ))) :=
  let vals := s0.devorder.map devdata
  match s0.csvfile with
  | none => .ok (s0, none)
  | some _ =>
    let s := if s0.lastwrite ≠ 0 ∧ hour tstamp < hour s0.lastwrite then
               { s0 with lastwrite := 0 } else s0
    if s.squash = false ∨ s.forcewrite ≤ tstamp - s.lastwrite then
      (writeStep s tstamp vals).map fun p => (p.1, some p.2)
    else
      match sigLoop s.sigchange s.lastvals vals 0 with
      | .error e => .error e
      | .ok true => (writeStep s tstamp vals).map fun p => (p.1, some p.2)
      | .ok false => .ok (s, none)

/-- A constant-hour clock, used by concrete evaluations where no day
boundary is crossed. -/
def hour0 : ℚ → ℤ := fun _ => 0

/-! ### gather (RecordSink fan-out) -/

/-- The `for writer in self.writers: writer.writerec(...)` loop, with each
target's behaviour on this record given as an `Except`.  Returns how many
targets were invoked and the first uncaught exception, if any; there is no
`try`/`except` in `gather.writerec`, so an exception aborts the loop. -/
def gatherLoop : List (Except String Unit) → Nat → Nat × Option String
  | [], k => (k, none)
  | .ok _ :: ws, k => gatherLoop ws (k + 1)
  | .error e :: _, k => (k + 1, some e)

/-- Outcome of one `gather.writerec` call: number of writer targets
invoked, whether the console line was printed, and the propagated
exception if a writer raised. -/
structure GatherResult where
  called : Nat
  consoleEchoed : Bool
  err : Option String
  deriving DecidableEq

/-- `gather.writerec(tstamp, devdata)`: deliver to every writer in order,
then (if `console`) print the compact line.  An exception from a writer
propagates out of the call, skipping the remaining writers and the
console print. -/
def gatherWriterec (writers : List (Except String Unit)) (console : Bool) :
    GatherResult :=
  match gatherLoop writers 0 with
  | (k, some e) => ⟨k, false, some e⟩
  | (k, none) => ⟨k, console, none⟩

/-! ### rundev.runloop (PollWorker) -/

/-- The first `nexttick` computed by `runloop`:
`float(((time.time()+.5)//startround)*startround)+startround`. -/
def firstTick (now startround : ℚ) : ℚ :=
  (⌊(now + 1/2) / startround⌋ : ℚ) * startround + startround

/-- Modelled from the spec: the smallest multiple of `R` strictly greater
than `x` (for `R > 0`), i.e. "the next multiple of `R` after `x`". -/
def nextMultipleAfter (x R : ℚ) : ℚ := ((⌊x / R⌋ : ℚ) + 1) * R

/-- Modelled from the spec: "the next multiple of `startRound` seconds
after now + 0.5 seconds, plus one additional full `startRound`". -/
def firstTickSpec (now R : ℚ) : ℚ := nextMultipleAfter (now + 1/2) R + R

/-- The overrun catch-up loop `while tm > nexttick: nexttick += tick`.
For `tick ≤ 0` the Python loop would not terminate; the model returns
`nexttick` unchanged in that (never exercised: `tick ≥ 1`) case. -/
def catchup (tick tm : ℚ) (nexttick : ℚ) : ℚ :=
  if h : 0 < tick then
    if h2 : nexttick < tm then catchup tick tm (nexttick + tick)
    else nexttick
  else nexttick
termination_by (⌈(tm - nexttick) / tick⌉).toNat
decreasing_by
  have hx : (tm - (nexttick + tick)) / tick = (tm - nexttick) / tick - 1 := by
    field_simp
    ring
  have h1 : (0 : ℚ) < (tm - nexttick) / tick := div_pos (by linarith) h
  have h2 : (1 : ℤ) ≤ ⌈(tm - nexttick) / tick⌉ := Int.ceil_pos.mpr h1
  have h3 : ⌈(tm - nexttick) / tick - 1⌉ = ⌈(tm - nexttick) / tick⌉ - 1 :=
    Int.ceil_sub_one _
  simp only [hx, h3]
  omega

/-- Payload of an event put on the error queue by the loop body (the
formatted message is abstracted to its data). -/
inductive ErrPayload where
  | fault (lasterror : Option String)
  | overrun (mag : ℚ)
  deriving DecidableEq

/-- Result of one pass through the `while self.running` body. -/
structure IterResult where
  dataEv : List (ℚ × String × ℚ)
  errEv : List (ℚ × String × ErrPayload)
  nexttick : ℚ
  reads : Nat
  deriving DecidableEq

/-- One pass through the body of `rundev.runloop`'s while loop.
`selfname` is `self.dev.mappedname`; `now` is the `time.time()` used for
`delay`, `tm` the re-read `time.time()` of the overrun branch; `readRes`
is what `self.dev.read()` would return this cycle; `globalDev` models the
module-level name `dev`: `none` when it was never bound (no `namemap` in
the config), `some lasterr` when it is bound to the last discovered
device, whose `lasterror` is `lasterr`.  The failed-read branch reads
`dev.lasterror` — not `self.dev.lasterror` — so it raises `NameError`
when `dev` is unbound and otherwise reports the last device's fault. -/
def loopIter (selfname : String) (globalDev : Option (Option String))
    (tick : ℚ) (nexttick now tm : ℚ) (readRes : Option ℚ) :
    Except String IterResult :=
  let delay := nexttick - now
  if 0 < delay then
    match readRes with
    | some v => .ok ⟨[(nexttick, selfname, v)], [], nexttick + tick, 1⟩
    | none =>
      match globalDev with
      | none => .error "NameError: name dev is not defined"
      | some lasterr =>
          .ok ⟨[], [(nexttick, selfname, .fault lasterr)], nexttick + tick, 1⟩
  else
    .ok ⟨[], [(tm, selfname, .overrun (-delay))], catchup tick tm nexttick, 0⟩

/-- A run of consecutive loop iterations; each cycle supplies its
`(now, tm, readRes)` inputs.  Accumulates the data and error events and
threads `nexttick`. -/
def runCycles (selfname : String) (globalDev : Option (Option String))
    (tick : ℚ) :
    ℚ → List (ℚ × ℚ × Option ℚ) →
    Except String (List (ℚ × String × ℚ) × List (ℚ × String × ErrPayload) × ℚ)
  | nexttick, [] => .ok ([], [], nexttick)
  | nexttick, (now, tm, rr) :: rest =>
    match loopIter selfname globalDev tick nexttick now tm rr with
    | .error e => .error e
    | .ok r =>
      match runCycles selfname globalDev tick r.nexttick rest with
      | .error e => .error e
      | .ok (ds, es, nt) => .ok (r.dataEv ++ ds, r.errEv ++ es, nt)

/-- A run in which every cycle starts before its scheduled tick (no
overrun) and every sensor read succeeds. -/
def GoodRun (tick : ℚ) : ℚ → List (ℚ × ℚ × Option ℚ) → Prop
  | _, [] => True
  | nexttick, (now, _, rr) :: rest =>
    now < nexttick ∧ rr.isSome = true ∧ GoodRun tick (nexttick + tick) rest

/-! ### the __main__ aggregator loop -/

/-- The in-progress record `devrec`: display name to optional value. -/
abbrev RecMap := String → Option ℚ

/-- `devrec = {dn: None for dn in devnames}`. -/
def emptyRecMap : RecMap := fun _ => none

/-- `devrec[devname] = value`. -/
def setRec (r : RecMap) (n : String) (v : ℚ) : RecMap :=
  fun m => if m = n then some v else r m

/-- An event taken off the data queue: `(tick, mappedname, value)`. -/
abbrev AggEvent := ℚ × String × ℚ

/-- The non-blocking drain (`while True: ... dqueue.get(block=False)`),
with the queued events supplied as a list; the `queue.Empty` handler is
the `[]` case.  `tstamp` is the tick of the event that opened the window
(never reassigned inside the drain), `ntstamp` the most recent dequeued
tick.  Returns the `(tstamp, record)` pairs passed to `writer.writerec`
in order, the outer `tstamp` after the drain (`tstamp = ntstamp`), and
the final `devrec` (reset to all-`None` by the Empty handler). -/
def drainLoop (tstamp : ℚ) (drec : RecMap) (ntstamp : ℚ) :
    List AggEvent → List (ℚ × RecMap) × ℚ × RecMap
  | [] => ([(tstamp, drec)], ntstamp, emptyRecMap)
  | (nt, name, v) :: evs =>
    if |nt - tstamp| < 1 ∧ drec name = none then
      drainLoop tstamp (setRec drec name v) nt evs
    else
      let r := drainLoop tstamp (setRec emptyRecMap name v) nt evs
      ((tstamp, drec) :: r.1, r.2)

/-- One outer iteration that received a data event from the blocking
`dqueue.get`: seed the (all-`None`) `devrec` with it, then drain.  The
window is the pair (opening event, events available to the drain). -/
def aggWindow (w : AggEvent × List AggEvent) : List (ℚ × RecMap) :=
  (drainLoop w.1.1 (setRec emptyRecMap w.1.2.1 w.1.2.2) w.1.1 w.2).1

/-- The records forwarded over a sequence of windows. -/
def aggRun (ws : List (AggEvent × List AggEvent)) : List (ℚ × RecMap) :=
  (ws.map aggWindow).flatten

/-- A drain whose every event lands within 1 second of the window tick
`t` in a still-empty slot (so the drain never splits the window). -/
def FillsClean (t : ℚ) : RecMap → List AggEvent → Prop
  | _, [] => True
  | drec, (nt, name, v) :: evs =>
    |nt - t| < 1 ∧ drec name = none ∧ FillsClean t (setRec drec name v) evs

/-! ### Helper lemmas -/

/-- With equal lengths the update loop succeeds and pairs each new value
with its stored slot, keeping the stored value exactly when the new one
is absent. -/
theorem updLoop_eq : ∀ (vals lv : List (Option ℚ)), vals.length = lv.length →
    updLoop vals lv = .ok (List.zipWith (fun v l => if v.isSome then v else l) vals lv)
  | [], [], _ => rfl
  | [], _ :: _, h => by simp at h
  | some _ :: _, [], h => by simp at h
  | none :: _, [], h => by simp at h
  | v :: vs, l :: lv, h => by
    have ih := updLoop_eq vs lv (by simpa using h)
    simp [updLoop, ih, Except.map]

/-- Every record forwarded by one non-blocking drain carries the tick of
the event that opened the drain. -/
theorem drain_tags (tstamp : ℚ) : ∀ (evs : List AggEvent) (drec : RecMap) (nt : ℚ),
    (drainLoop tstamp drec nt evs).1.map Prod.fst =
      List.replicate (drainLoop tstamp drec nt evs).1.length tstamp
  | [], drec, nt => by simp [drainLoop]
  | (nt2, name, v) :: evs, drec, nt => by
    by_cases h : |nt2 - tstamp| < 1 ∧ drec name = none
    · simpa [drainLoop, h] using drain_tags tstamp evs (setRec drec name v) nt2
    · simp [drainLoop, h, List.replicate_succ,
        drain_tags tstamp evs (setRec emptyRecMap name v) nt2]

/-- A drain whose events all fill empty slots within the window forwards
exactly one record, tagged with the window tick. -/
theorem fillsClean_drain (t : ℚ) : ∀ (evs : List AggEvent) (drec : RecMap) (nt : ℚ),
    FillsClean t drec evs → ∃ dr, (drainLoop t drec nt evs).1 = [(t, dr)]
  | [], drec, _, _ => ⟨drec, by simp [drainLoop]⟩
  | (nt2, name, v) :: evs, drec, nt, h => by
    simp only [FillsClean] at h
    obtain ⟨h1, h2, h3⟩ := h
    have ih := fillsClean_drain t evs (setRec drec name v) nt2 h3
    simpa [drainLoop, h1, h2] using ih

/-- Over clean windows the aggregator forwards one record per window,
tagged with that window's opening tick. -/
theorem aggRun_tags : ∀ (ws : List (AggEvent × List AggEvent)),
    (∀ w ∈ ws, FillsClean w.1.1 (setRec emptyRecMap w.1.2.1 w.1.2.2) w.2) →
    (aggRun ws).map Prod.fst = ws.map fun w => w.1.1
  | [], _ => rfl
  | w :: ws, h => by
    obtain ⟨dr, hdr⟩ := fillsClean_drain w.1.1 w.2
      (setRec emptyRecMap w.1.2.1 w.1.2.2) w.1.1 (h w (by simp))
    have ih := aggRun_tags ws (fun x hx => h x (by simp [hx]))
    simp only [aggRun, List.map_cons, List.flatten_cons, List.map_append] at ih ⊢
    rw [aggWindow, hdr]
    simp [ih]

/-- When every target succeeds, the fan-out loop reaches all of them. -/
theorem gatherLoop_allOk : ∀ (ws : List (Except String Unit)) (k : Nat),
    (∀ w ∈ ws, w = .ok ()) → gatherLoop ws k = (k + ws.length, none)
  | [], k, _ => by simp [gatherLoop]
  | w :: ws, k, h => by
    have hw : w = .ok () := h w (by simp)
    subst hw
    rw [gatherLoop, gatherLoop_allOk ws (k + 1) (fun x hx => h x (by simp [hx]))]
    simp [Prod.ext_iff]
    omega

/-- The fan-out loop stops at the first raising target. -/
theorem gatherLoop_firstErr : ∀ (pre : List (Except String Unit)) (e : String)
    (post : List (Except String Unit)) (k : Nat), (∀ w ∈ pre, w = .ok ()) →
    gatherLoop (pre ++ .error e :: post) k = (k + pre.length + 1, some e)
  | [], e, post, k, _ => by simp [gatherLoop]
  | w :: pre, e, post, k, h => by
    have hw : w = .ok () := h w (by simp)
    subst hw
    rw [List.cons_append, gatherLoop,
      gatherLoop_firstErr pre e post (k + 1) (fun x hx => h x (by simp [hx]))]
    simp [Prod.ext_iff]
    omega

/-- The element picked by the last-candidate fold is one of the
candidates. -/
theorem lastCand_fold_mem : ∀ (cs : List (String × String)) (c0 : String × String),
    (cs.foldl (fun acc d => if d.1 < acc.1 then acc else d) c0) ∈ c0 :: cs
  | [], c0 => by simp
  | d :: cs, c0 => by
    have ih := lastCand_fold_mem cs (if d.1 < c0.1 then c0 else d)
    simp only [List.foldl_cons]
    rcases List.mem_cons.mp ih with h | h
    · rw [h]
      split
      · exact List.mem_cons_self _ _
      · exact List.mem_cons_of_mem _ (List.mem_cons_self _ _)
    · exact List.mem_cons_of_mem _ (List.mem_cons_of_mem _ h)

/-- The element picked by the last-candidate fold has the largest name. -/
theorem lastCand_fold_ge : ∀ (cs : List (String × String)) (c0 c : String × String),
    c ∈ c0 :: cs →
    c.1 ≤ (cs.foldl (fun acc d => if d.1 < acc.1 then acc else d) c0).1
  | [], c0, c, hc => by
    simp at hc
    simp [hc]
  | d :: cs, c0, c, hc => by
    set m : String × String := if d.1 < c0.1 then c0 else d with hm
    have hc0 : c0.1 ≤ m.1 := by
      rw [hm]
      split
      · exact le_refl _
      · exact le_of_not_lt (by assumption)
    have hdm : d.1 ≤ m.1 := by
      rw [hm]
      split
      · exact le_of_lt (by assumption)
      · exact le_refl _
    simp only [List.foldl_cons, ← hm]
    rcases List.mem_cons.mp hc with rfl | hc2
    · exact le_trans hc0 (lastCand_fold_ge cs m m (by simp))
    · rcases List.mem_cons.mp hc2 with rfl | hc3
      · exact le_trans hdm (lastCand_fold_ge cs m m (by simp))
      · exact lastCand_fold_ge cs m c (by simp [hc3])

/-- The last candidate, when one exists, is a candidate with the largest
(lexicographically last) name. -/
theorem lastCand_spec (cands : List (String × String)) (c : String × String)
    (hc : c ∈ cands) :
    ∃ m, lastCand cands = some m ∧ m ∈ cands ∧ c.1 ≤ m.1 := by
  match cands with
  | [] => cases hc
  | c0 :: cs =>
    exact ⟨_, rfl, lastCand_fold_mem cs c0, lastCand_fold_ge cs c0 c hc⟩

/-- The catch-up loop lands on the first grid point at or beyond `tm`:
it adds some whole number of ticks, ends at or past `tm`, and every
smaller number of ticks would still be short of `tm`. -/
theorem catchup_spec (tick tm : ℚ) (hpos : 0 < tick) (nexttick : ℚ) :
    ∃ k : ℕ, catchup tick tm nexttick = nexttick + k * tick ∧
      tm ≤ nexttick + k * tick ∧ ∀ j : ℕ, j < k → nexttick + j * tick < tm := by
  by_cases h2 : nexttick < tm
  · obtain ⟨k, hk1, hk2, hk3⟩ := catchup_spec tick tm hpos (nexttick + tick)
    refine ⟨k + 1, ?_, ?_, ?_⟩
    · rw [catchup, dif_pos hpos, dif_pos h2, hk1]
      push_cast
      ring
    · push_cast
      push_cast at hk2
      linarith
    · intro j hj
      cases j with
      | zero => simpa using h2
      | succ j =>
        have hlt := hk3 j (by omega)
        push_cast at hlt ⊢
        linarith
  · refine ⟨0, ?_, ?_, ?_⟩
    · rw [catchup, dif_pos hpos, dif_neg h2]
      push_cast
      ring
    · push_cast
      linarith [not_lt.mp h2]
    · intro j hj
      omega
termination_by (⌈(tm - nexttick) / tick⌉).toNat
decreasing_by
  have hx : (tm - (nexttick + tick)) / tick = (tm - nexttick) / tick - 1 := by
    field_simp
    ring
  have hq1 : (0 : ℚ) < (tm - nexttick) / tick := div_pos (by linarith) hpos
  have hq2 : (1 : ℤ) ≤ ⌈(tm - nexttick) / tick⌉ := Int.ceil_pos.mpr hq1
  have hq3 : ⌈(tm - nexttick) / tick - 1⌉ = ⌈(tm - nexttick) / tick⌉ - 1 :=
    Int.ceil_sub_one _
  simp only [hx, hq3]
  omega

/-- An arithmetic progression with positive step is a strict chain with
consecutive difference exactly the step. -/
theorem prog_chain (t0 step : ℚ) (hstep : 0 < step) (n : ℕ) :
    List.Chain' (fun a b => a < b ∧ b = a + step)
      ((List.range n).map fun i : ℕ => t0 + (i : ℚ) * step) := by
  rw [List.chain'_map]
  cases n with
  | zero => simp
  | succ m =>
    rw [List.chain'_range_succ]
    intro i hi
    constructor
    · push_cast
      nlinarith
    · push_cast
      ring

/-- Over a run without overruns and without failed reads, the worker
emits one data event per cycle, no error events, and the event ticks form
the arithmetic progression starting at the current tick. -/
theorem goodRun_cycles (selfname : String) (gd : Option (Option String)) (tick : ℚ) :
    ∀ (ins : List (ℚ × ℚ × Option ℚ)) (nexttick : ℚ), GoodRun tick nexttick ins →
    ∃ ds, runCycles selfname gd tick nexttick ins =
        .ok (ds, [], nexttick + ins.length * tick) ∧
      ds.map Prod.fst = (List.range ins.length).map fun i : ℕ => nexttick + (i : ℚ) * tick
  | [], nexttick, _ => ⟨[], by simp [runCycles], by simp⟩
  | (now, tm, rr) :: ins, nexttick, h => by
    simp only [GoodRun] at h
    obtain ⟨h1, h2, h3⟩ := h
    obtain ⟨v, hv⟩ := Option.isSome_iff_exists.mp h2
    subst hv
    obtain ⟨ds, hds, hmap⟩ := goodRun_cycles selfname gd tick ins (nexttick + tick) h3
    refine ⟨(nexttick, selfname, v) :: ds, ?_, ?_⟩
    · simp only [runCycles, loopIter]
      rw [if_pos (by linarith : (0:ℚ) < nexttick - now)]
      simp only [hds]
      simp only [List.singleton_append, List.nil_append, List.length_cons]
      congr 2
      push_cast
      ring
    · rw [List.map_cons, hmap, List.length_cons, List.range_succ_eq_map]
      rw [List.map_cons, List.map_map]
      refine List.cons_eq_cons.mpr ⟨by push_cast; ring, ?_⟩
      refine List.map_congr_left fun i hi => ?_
      simp only [Function.comp]
      push_cast
      ring

/-! ### Claim theorems -/

/-- C1: the claim says that with squash threshold 0 every Record is
written.  In the code, `__init__` creates `self.lastvals` only when
`squash != 0`, yet the write path uses it unconditionally, so with
`squash = 0` the very first `writerec` call raises `AttributeError`
before anything is appended — contradicting both the claim and the
constructor's own docstring ("if 0 every record is written").  The
theorem evaluates the model at such an input: a fresh writer with
`squash = 0`, one device, a present reading, a timestamp past
`forcewrite`. -/
theorem C1_squash_zero_crash :
    writerec hour0 ((initWriter ["a"] [] 0 60 "f").st) 100 (fun _ => some 20) =
      .error "AttributeError: lastvals" := by
  norm_num [writerec, initWriter, lastCand, writeStep, hour0, Except.map]

/-- C2 (counterexample): the drain loop never updates the window-tick
variable after a split, so the record of the next window is forwarded
tagged with the previous window's tick.  Concretely: window opened at
tick 0 with sensor a filled; the queue holds one event at tick 5 for a.
Both forwarded records carry tag 0, although the second one holds the
value delivered at tick 5 — its own window's canonical tick is 5, not
0. -/
theorem C2_stale_tag_cex :
    (drainLoop 0 (setRec emptyRecMap "a" 20) 0 [(5, "a", 21)]).1.map Prod.fst = [0, 0] ∧
    (drainLoop 0 (setRec emptyRecMap "a" 20) 0 [(5, "a", 21)]).1.map (fun p => p.2 "a") =
      [some 20, some 21] ∧
    (5 : ℚ) ≠ 0 := by
  refine ⟨?_, ?_, by norm_num⟩ <;> norm_num [drainLoop, setRec, emptyRecMap]

/-- C2 (amended): a dequeued event whose tick is within 1 second of the
tick t0 of the event that opened the drain — t0 is never reassigned
during the drain, even after a split — and whose slot is still empty
fills that slot; any other dequeued event causes the in-progress Record
to be forwarded immediately and a fresh Record to be started seeded with
that event; but every Record forwarded during the drain, including those
of windows begun after a split and the final one at queue exhaustion, is
tagged with t0 — not with the canonical tick of its own window. -/
theorem C2_drain_behaviour :
    (∀ (tstamp nt nt2 v : ℚ) (name : String) (drec : RecMap) (evs : List AggEvent),
      drainLoop tstamp drec nt ((nt2, name, v) :: evs) =
        if |nt2 - tstamp| < 1 ∧ drec name = none then
          drainLoop tstamp (setRec drec name v) nt2 evs
        else
          ((tstamp, drec) :: (drainLoop tstamp (setRec emptyRecMap name v) nt2 evs).1,
            (drainLoop tstamp (setRec emptyRecMap name v) nt2 evs).2)) ∧
    (∀ (tstamp nt : ℚ) (drec : RecMap) (evs : List AggEvent),
      (drainLoop tstamp drec nt evs).1.map Prod.fst =
        List.replicate (drainLoop tstamp drec nt evs).1.length tstamp) := by
  constructor
  · intro tstamp nt nt2 v name drec evs
    simp only [drainLoop]
  · intro tstamp nt drec evs
    exact drain_tags tstamp evs drec nt

/-- C3 (counterexample): with now = 12.3 and startRound = 5 the code
computes nexttick = (12.8 // 5)*5 + 5 = 15, which is already the next
multiple of 5 after 12.8; the claim's reading — that next multiple
(15) plus one additional full startRound — would be 20. -/
theorem C3_first_tick_cex :
    firstTick (123/10) 5 = 15 ∧ firstTickSpec (123/10) 5 = 20 ∧ (15 : ℚ) ≠ 20 := by
  refine ⟨?_, ?_, by norm_num⟩ <;>
    norm_num [firstTick, firstTickSpec, nextMultipleAfter]

/-- C3 (amended): the first scheduled tick is the largest multiple of
startRound not exceeding now + 0.5, plus one startRound — equivalently,
it is exactly the smallest multiple of startRound strictly after
now + 0.5, with no additional startRound added. -/
theorem C3_first_tick_amended (now R : ℚ) (hR : 0 < R) :
    (∃ m : ℤ, firstTick now R = m * R) ∧
    now + 1/2 < firstTick now R ∧
    (∀ m : ℤ, now + 1/2 < m * R → firstTick now R ≤ m * R) ∧
    firstTick now R = nextMultipleAfter (now + 1/2) R := by
  have hfloor : ((⌊(now + 1/2) / R⌋ : ℚ) + 1) * R = firstTick now R := by
    rw [firstTick]
    ring
  refine ⟨⟨⌊(now + 1/2) / R⌋ + 1, by push_cast; linarith [hfloor]⟩, ?_, ?_, ?_⟩
  · have h1 : (now + 1/2) / R < (⌊(now + 1/2) / R⌋ : ℚ) + 1 :=
      Int.lt_floor_add_one _
    have h2 : now + 1/2 < ((⌊(now + 1/2) / R⌋ : ℚ) + 1) * R :=
      (div_lt_iff hR).mp h1
    linarith [hfloor]
  · intro m hm
    have h1 : (now + 1/2) / R < (m : ℚ) := (div_lt_iff hR).mpr hm
    have h2 : ⌊(now + 1/2) / R⌋ < m := Int.floor_lt.mpr h1
    have h3 : ((⌊(now + 1/2) / R⌋ : ℚ) + 1) ≤ (m : ℚ) := by
      push_cast
      exact_mod_cast Int.add_one_le_iff.mpr h2
    have h4 : ((⌊(now + 1/2) / R⌋ : ℚ) + 1) * R ≤ (m : ℚ) * R :=
      mul_le_mul_of_nonneg_right h3 hR.le
    linarith [hfloor]
  · rw [firstTick, nextMultipleAfter]
    ring

/-- Witness for C3: the amended statement instantiated at now = 12.3,
startRound = 5. -/
theorem C3_first_tick_amended_w :
    (0 : ℚ) < 5 ∧
    ((∃ m : ℤ, firstTick (123/10) 5 = m * 5) ∧
      (123/10 : ℚ) + 1/2 < firstTick (123/10) 5 ∧
      (∀ m : ℤ, (123/10 : ℚ) + 1/2 < m * 5 → firstTick (123/10) 5 ≤ m * 5) ∧
      firstTick (123/10) 5 = nextMultipleAfter ((123/10 : ℚ) + 1/2) 5) :=
  ⟨by norm_num, C3_first_tick_amended (123/10) 5 (by norm_num)⟩

/-- C5: the claim says a single failed read is recorded on the error
queue with that sensor's fault and the loop continues.  The failed-read
branch reads the module-level name dev (`dev.lasterror`), not
`self.dev`: when no namemap is configured, dev was never bound at module
level, so the first failed read raises `NameError`, which the bare
except around the loop catches — terminating the worker.  When a
namemap is configured, dev is the last discovered device, so the event
records the last device's `lasterror`, not this sensor's fault.  The
theorem evaluates both situations: nexttick 10, now 8 (no overrun),
read returning None. -/
theorem C5_failed_read_crash :
    loopIter "s1" none 5 10 8 (41/5) none =
        .error "NameError: name dev is not defined" ∧
    loopIter "s1" (some (some "last device fault")) 5 10 8 (41/5) none =
        .ok ⟨[], [(10, "s1", .fault (some "last device fault"))], 15, 1⟩ := by
  constructor <;> norm_num [loopIter]

/-- C8 (counterexample): with two writer targets of which the first
raises, only one target is ever invoked and the console line is not
printed, although console echo is enabled — `gather.writerec` has no
try/except, so the exception propagates and the second target never
receives the Record. -/
theorem C8_isolation_cex :
    (gatherWriterec [.error "disk full", .ok ()] true).called = 1 ∧
    ([Except.error "disk full", Except.ok ()] : List (Except String Unit)).length = 2 ∧
    (gatherWriterec [.error "disk full", .ok ()] true).consoleEchoed = false := by
  refine ⟨?_, by norm_num, ?_⟩ <;> norm_num [gatherWriterec, gatherLoop]

/-- C8 (amended): gather.writerec delivers the Record to the writer
targets in order only up to the first raising target: when no target
raises, all targets receive it and the console echo prints if enabled;
when a target raises, the exception propagates, skipping every remaining
target and the console echo. -/
theorem C8_fanout_amended :
    (∀ (ws : List (Except String Unit)) (console : Bool),
      (∀ w ∈ ws, w = .ok ()) →
      gatherWriterec ws console = ⟨ws.length, console, none⟩) ∧
    (∀ (pre post : List (Except String Unit)) (e : String) (console : Bool),
      (∀ w ∈ pre, w = .ok ()) →
      gatherWriterec (pre ++ .error e :: post) console =
        ⟨pre.length + 1, false, some e⟩) := by
  constructor
  · intro ws console h
    simp [gatherWriterec, gatherLoop_allOk ws 0 h]
  · intro pre post e console h
    simp [gatherWriterec, gatherLoop_firstErr pre e post 0 h]

/-- Witness for C8: the amended statement at concrete target lists, one
all-succeeding and one with a raising target in the middle. -/
theorem C8_fanout_amended_w :
    gatherWriterec [Except.ok ()] true = ⟨1, true, none⟩ ∧
    gatherWriterec [Except.ok (), Except.error "x", Except.ok ()] true =
      ⟨2, false, some "x"⟩ :=
  ⟨C8_fanout_amended.1 [Except.ok ()] true (by simp),
   C8_fanout_amended.2 [Except.ok ()] [Except.ok ()] "x" true (by simp)⟩

/-- C4: when delay = nextTick - now is not positive at the top of the
loop, the body emits exactly one error event — an overrun diagnostic
timestamped with the re-read clock and carrying the magnitude
now - nextTick — emits no data event, performs no sensor read, and
advances nextTick by the least whole number of ticks that reaches or
passes the current time, skipping the backlog. -/
theorem C4_overrun_skip (selfname : String) (gd : Option (Option String))
    (tick nexttick now tm : ℚ) (rr : Option ℚ)
    (hpos : 0 < tick) (hover : nexttick - now ≤ 0) :
    ∃ k : ℕ, loopIter selfname gd tick nexttick now tm rr =
        .ok ⟨[], [(tm, selfname, .overrun (now - nexttick))], nexttick + k * tick, 0⟩ ∧
      tm ≤ nexttick + k * tick ∧
      ∀ j : ℕ, j < k → nexttick + j * tick < tm := by
  obtain ⟨k, h1, h2, h3⟩ := catchup_spec tick tm hpos nexttick
  refine ⟨k, ?_, h2, h3⟩
  simp only [loopIter]
  rw [if_neg (by linarith : ¬ (0:ℚ) < nexttick - now)]
  rw [h1]
  simp [neg_sub]

/-- Witness for C4: one concrete overrun cycle — tick 5, nextTick 10,
now = tm = 12; the loop reports overrun 2 and skips to 15. -/
theorem C4_overrun_skip_w :
    (0 : ℚ) < 5 ∧ (10 : ℚ) - 12 ≤ 0 ∧
    ∃ k : ℕ, loopIter "s" none 5 10 12 12 none =
        .ok ⟨[], [(12, "s", .overrun (12 - 10))], 10 + k * 5, 0⟩ ∧
      (12 : ℚ) ≤ 10 + k * 5 ∧
      ∀ j : ℕ, j < k → (10 : ℚ) + j * 5 < 12 :=
  ⟨by norm_num, by norm_num,
   C4_overrun_skip "s" none 5 10 12 12 none (by norm_num) (by norm_num)⟩

/-- A successful write step pairs each present value with its slot and
keeps the stored value for each absent one. -/
theorem writeStep_ok_iff (s : WriterState) (tstamp : ℚ)
    (vals lv : List (Option ℚ))
    (hlv : s.lastvals = some lv) (hlen : vals.length = lv.length)
    (p : WriterState × List (Option ℚ)) (h : writeStep s tstamp vals = .ok p) :
    p = ({ s with
            lastvals := some (List.zipWith (fun v l => if v.isSome then v else l) vals lv),
            lastwrite := tstamp },
         List.zipWith (fun v l => if v.isSome then v else l) vals lv) := by
  rw [writeStep, hlv] at h
  by_cases he : vals.isEmpty
  · rw [if_pos he] at h
    cases h
  · rw [if_neg he] at h
    simp only [updLoop_eq vals lv hlen] at h
    exact (Except.ok.inj h).symm

/-- Unpacks a mapped write step that produced a written row. -/
theorem writeStep_map_ok (s1 s2 : WriterState) (tstamp : ℚ)
    (vals lv row : List (Option ℚ))
    (hlv : s1.lastvals = some lv) (hlen : vals.length = lv.length)
    (hw : (writeStep s1 tstamp vals).map (fun p => (p.1, some p.2)) =
      Except.ok (s2, some row)) :
    row = List.zipWith (fun v l => if v.isSome then v else l) vals lv ∧
    s2.lastvals = some row ∧ s2.lastwrite = tstamp := by
  cases hres : writeStep s1 tstamp vals with
  | error e =>
    rw [hres] at hw
    simp [Except.map] at hw
  | ok p =>
    rw [hres] at hw
    simp only [Except.map] at hw
    have hp := writeStep_ok_iff s1 tstamp vals lv hlv hlen p hres
    have hinj := Except.ok.inj hw
    have hp1 : p.1 = s2 := congrArg Prod.fst hinj
    have hp2 : p.2 = row := Option.some.inj (congrArg Prod.snd hinj)
    subst hp
    simp only at hp1 hp2
    rw [← hp1, ← hp2]
    exact ⟨rfl, rfl, rfl⟩

/-- Whenever writerec writes a row, that row holds the incoming value
for every present sensor and the previously stored value for every
absent one, and it becomes the new stored-value list, with the
last-write time set to the record's timestamp. -/
theorem writerec_ok_write (hour : ℚ → ℤ) (s s2 : WriterState) (tstamp : ℚ)
    (devdata : String → Option ℚ) (lv row : List (Option ℚ))
    (hlv : s.lastvals = some lv)
    (hlen : (s.devorder.map devdata).length = lv.length)
    (hw : writerec hour s tstamp devdata = .ok (s2, some row)) :
    row = List.zipWith (fun v l => if v.isSome then v else l)
      (s.devorder.map devdata) lv ∧
    s2.lastvals = some row ∧ s2.lastwrite = tstamp := by
  cases hcsv : s.csvfile with
  | none =>
    simp only [writerec, hcsv] at hw
    simp at hw
  | some fn =>
    by_cases hrot : s.lastwrite ≠ 0 ∧ hour tstamp < hour s.lastwrite
    · simp only [writerec, hcsv, if_pos hrot] at hw
      split at hw
      · exact writeStep_map_ok _ s2 tstamp _ lv row (by simpa using hlv) hlen hw
      · split at hw
        · cases hw
        · exact writeStep_map_ok _ s2 tstamp _ lv row (by simpa using hlv) hlen hw
        · simp at hw
    · simp only [writerec, hcsv, if_neg hrot] at hw
      split at hw
      · exact writeStep_map_ok _ s2 tstamp _ lv row (by simpa using hlv) hlen hw
      · split at hw
        · cases hw
        · exact writeStep_map_ok _ s2 tstamp _ lv row (by simpa using hlv) hlen hw
        · simp at hw

/-- C6 (counterexample): sensor b has never reported since construction,
yet the first written row renders it as the formatted squash sentinel
999 — not as a blank field.  Blanks would only appear for a stored
entry equal to None, and entries start at 999 and are only ever
overwritten by present values. -/
theorem C6_blank_field_cex :
    (writerec hour0 (initWriter ["a", "b"] [] (1/2) 60 "f").st 100
        (fun n => if n = "a" then some 20 else none)).toOption.map (fun p => p.2) =
      some (some [some 20, some 999]) ∧
    some (999 : ℚ) ≠ (none : Option ℚ) := by
  refine ⟨?_, by simp⟩
  norm_num [writerec, initWriter, lastCand, writeStep, updLoop, hour0, Except.map,
    Except.toOption]

/-- C6 (amended): on every write, writerec emits the incoming value for
each sensor present in this Record and the stored last value for each
absent one, and updates the stored value list to exactly that row — so
stored values change only for present sensors; a sensor that has never
reported emits the constructor's sentinel 999 (the stored list starts as
all-999 when squashing is on), never a blank field. -/
theorem C6_row_amended :
    (∀ (dord : List String) (cands : List (String × String)) (q fw : ℚ)
      (nn : String), q ≠ 0 →
      (initWriter dord cands q fw nn).st.lastvals =
        some (dord.map fun _ => some (999 : ℚ))) ∧
    (∀ (hour : ℚ → ℤ) (s s2 : WriterState) (tstamp : ℚ)
      (devdata : String → Option ℚ) (lv row : List (Option ℚ)),
      s.lastvals = some lv → (s.devorder.map devdata).length = lv.length →
      writerec hour s tstamp devdata = .ok (s2, some row) →
      row = List.zipWith (fun v l => if v.isSome then v else l)
        (s.devorder.map devdata) lv ∧
      s2.lastvals = some row ∧ s2.lastwrite = tstamp) := by
  constructor
  · intro dord cands q fw nn hq
    have hd : decide (q ≠ 0) = true := decide_eq_true hq
    cases hl : lastCand cands with
    | none => simp [initWriter, hl, hd]
    | some m =>
      by_cases hh : headerOk dord m.2 <;> simp [initWriter, hl, hd, hh]
  · intro hour s s2 tstamp devdata lv row hlv hlen hw
    exact writerec_ok_write hour s s2 tstamp devdata lv row hlv hlen hw

/-- Witness for C6: both amended parts at a concrete two-sensor writer;
the first write with sensor a present and b absent produces the row
20, 999 and stores it. -/
theorem C6_row_amended_w :
    ((initWriter ["a", "b"] [] (1/2) 60 "f").st.lastvals =
      some ((["a", "b"] : List String).map fun _ => some (999 : ℚ))) ∧
    ([some 20, some 999] : List (Option ℚ)) =
      List.zipWith (fun v l => if v.isSome then v else l)
        (((initWriter ["a", "b"] [] (1/2) 60 "f").st.devorder.map
          (fun n => if n = "a" then some (20:ℚ) else none)))
        [some 999, some 999] ∧
    ({ devorder := ["a", "b"], squash := true, sigchange := 1/2,
       lastvals := some [some 20, some 999], forcewrite := 60,
       lastwrite := 100, csvfile := some "f" } : WriterState).lastvals =
      some [some 20, some 999] ∧
    ({ devorder := ["a", "b"], squash := true, sigchange := 1/2,
       lastvals := some [some 20, some 999], forcewrite := 60,
       lastwrite := 100, csvfile := some "f" } : WriterState).lastwrite = 100 := by
  refine ⟨C6_row_amended.1 ["a", "b"] [] (1/2) 60 "f" (by norm_num), ?_⟩
  have h := C6_row_amended.2 hour0 (initWriter ["a", "b"] [] (1/2) 60 "f").st
    { devorder := ["a", "b"], squash := true, sigchange := 1/2,
      lastvals := some [some 20, some 999], forcewrite := 60,
      lastwrite := 100, csvfile := some "f" }
    100 (fun n => if n = "a" then some 20 else none)
    [some 999, some 999] [some 20, some 999]
    (by norm_num [initWriter, lastCand])
    (by norm_num [initWriter, lastCand])
    (by norm_num [writerec, initWriter, lastCand, writeStep, updLoop, hour0,
      Except.map])
  exact h

/-- C7: at construction the lexicographically last existing candidate is
selected; the writer continues it exactly when its first line has
devorder-length plus one comma-separated fields, first stripped field
time, and remaining stripped fields equal to the configured names in
order; otherwise — including when no candidate exists — a brand-new
file is created whose first line is the header time,name1,name2,... -/
theorem C7_continuation (devorder : List String) (cands : List (String × String))
    (squash fw : ℚ) (newname : String) :
    (∀ c ∈ cands, ∃ m, lastCand cands = some m ∧ m ∈ cands ∧ c.1 ≤ m.1) ∧
    (∀ fl : String, headerOk devorder fl = true ↔
      ((fl.splitOn ",").length = devorder.length + 1 ∧
       ((fl.splitOn ",").map String.trim).head? = some "time" ∧
       ((fl.splitOn ",").map String.trim).tail = devorder)) ∧
    (match lastCand cands with
     | some m =>
        if headerOk devorder m.2 then
          (initWriter devorder cands squash fw newname).newHeader = none ∧
          (initWriter devorder cands squash fw newname).st.csvfile = some m.1
        else
          (initWriter devorder cands squash fw newname).newHeader =
            some (headerLine devorder) ∧
          (initWriter devorder cands squash fw newname).st.csvfile = some newname
     | none =>
        (initWriter devorder cands squash fw newname).newHeader =
          some (headerLine devorder) ∧
        (initWriter devorder cands squash fw newname).st.csvfile = some newname) := by
  refine ⟨fun c hc => lastCand_spec cands c hc, ?_, ?_⟩
  · intro fl
    rw [headerOk]
    split
    · next hlen2 =>
      simp [hlen2, Bool.and_eq_true, beq_iff_eq]
    · next hlen2 =>
      simp [hlen2]
  · cases hl : lastCand cands with
    | none => simp [initWriter, hl]
    | some m =>
      by_cases hh : headerOk devorder m.2 <;> simp [initWriter, hl, hh]

/-- Witness for C7: a concrete candidate list whose last entry has the
matching header time,a for devorder a; the instantiated conclusions of
the continuation theorem. -/
theorem C7_continuation_w :
    (∃ m, lastCand [("data_1", "x"), ("data_2", "time,a\n")] = some m ∧
      m ∈ [("data_1", "x"), ("data_2", "time,a\n")] ∧
      (("data_1", "x") : String × String).1 ≤ m.1) ∧
    (headerOk ["a"] "time,a\n" = true ↔
      (("time,a\n".splitOn ",").length = (["a"] : List String).length + 1 ∧
       (("time,a\n".splitOn ",").map String.trim).head? = some "time" ∧
       (("time,a\n".splitOn ",").map String.trim).tail = ["a"])) :=
  ⟨(C7_continuation ["a"] [("data_1", "x"), ("data_2", "time,a\n")] 0 60 "nf").1
      ("data_1", "x") (by simp),
   (C7_continuation ["a"] [("data_1", "x"), ("data_2", "time,a\n")] 0 60 "nf").2.1
      "time,a\n"⟩

/-- Projected shape of a freshly constructed writer: only the chosen
file name depends on the candidate scan. -/
theorem initWriter_st_proj (dord : List String) (cands : List (String × String))
    (q fw : ℚ) (nn : String) :
    ∃ fn, (initWriter dord cands q fw nn).st =
      { devorder := dord, squash := decide (q ≠ 0), sigchange := q,
        lastvals := if decide (q ≠ 0) then some (dord.map fun _ => some 999)
          else none,
        forcewrite := fw, lastwrite := 0, csvfile := some fn } := by
  cases hl : lastCand cands with
  | none => exact ⟨nn, by simp [initWriter, hl]⟩
  | some m =>
    by_cases hh : headerOk dord m.2
    · exact ⟨m.1, by simp [initWriter, hl, hh]⟩
    · exact ⟨nn, by simp [initWriter, hl, hh]⟩

/-- C10 (counterexample): a newly constructed writer with squash
threshold 0.1 over an empty device list: the first writerec call with
timestamp 100 at least forcewrite 60 raises NameError (the vstr variable
is never assigned when the per-device loop body never runs) instead of
writing the record. -/
theorem C10_first_write_cex :
    writerec hour0 ((initWriter [] [] (1/10) 60 "f").st) 100 (fun _ => none) =
      .error "NameError: vstr" ∧ (1/10 : ℚ) ≠ 0 ∧ (60 : ℚ) ≤ 100 := by
  refine ⟨?_, by norm_num, by norm_num⟩
  norm_num [writerec, initWriter, lastCand, writeStep, hour0, Except.map]

/-- C10 (amended): for a newly constructed writer with nonzero squash
threshold and at least one configured device, the first record passed to
writerec with any timestamp at least forcewrite is always written —
lastwrite starts at 0, so the forcewrite condition holds on the first
call regardless of how close the values are to the 999 sentinels. -/
theorem C10_first_write_amended (hour : ℚ → ℤ) (dord : List String)
    (cands : List (String × String)) (q fw : ℚ) (nn : String) (tstamp : ℚ)
    (devdata : String → Option ℚ)
    (hq : q ≠ 0) (hdord : dord ≠ []) (ht : fw ≤ tstamp) :
    ∃ s2 row, writerec hour ((initWriter dord cands q fw nn).st) tstamp devdata =
      .ok (s2, some row) := by
  obtain ⟨fn, hst⟩ := initWriter_st_proj dord cands q fw nn
  have hd : decide (q ≠ 0) = true := decide_eq_true hq
  rw [hst]
  simp only [writerec, hd, if_true]
  rw [if_neg (by simp : ¬ ((0:ℚ) ≠ 0 ∧ hour tstamp < hour 0))]
  rw [if_pos (Or.inr (by simpa using ht))]
  rw [writeStep]
  rw [if_neg (by simpa [List.isEmpty_iff] using hdord)]
  simp only []
  rw [updLoop_eq _ _ (by simp)]
  exact ⟨_, _, rfl⟩

/-- Witness for C10: the amended statement at a one-device writer with
squash 0.5, forcewrite 60, first timestamp 100. -/
theorem C10_first_write_amended_w :
    (1/2 : ℚ) ≠ 0 ∧ (["a"] : List String) ≠ [] ∧ (60 : ℚ) ≤ 100 ∧
    ∃ s2 row, writerec hour0 ((initWriter ["a"] [] (1/2) 60 "f").st) 100
      (fun _ => some 20) = .ok (s2, some row) :=
  ⟨by norm_num, by simp, by norm_num,
   C10_first_write_amended hour0 ["a"] [] (1/2) 60 "f" 100 (fun _ => some 20)
     (by norm_num) (by simp) (by norm_num)⟩

/-- C9: under a run with no overrun and only successful reads, one
worker's data-event ticks are exactly the arithmetic progression with
step the tick interval — strictly increasing, spaced exactly tick
apart, with no error events; and when the aggregator's windows open at
those grid ticks and every drained event lands cleanly inside its
window, the forwarded records' tick tags form the same kind of
progression: monotonically increasing and spaced T apart. -/
theorem C9_tick_spacing (selfname : String) (gd : Option (Option String))
    (tick nexttick : ℚ) (ins : List (ℚ × ℚ × Option ℚ))
    (windows : List (AggEvent × List AggEvent)) (t0 T : ℚ)
    (htick : 1 ≤ tick) (hgood : GoodRun tick nexttick ins) (hT : 1 ≤ T)
    (hticks : windows.map (fun w => w.1.1) =
      (List.range windows.length).map fun i : ℕ => t0 + (i : ℚ) * T)
    (hclean : ∀ w ∈ windows,
      FillsClean w.1.1 (setRec emptyRecMap w.1.2.1 w.1.2.2) w.2) :
    (∃ ds, runCycles selfname gd tick nexttick ins =
        .ok (ds, [], nexttick + ins.length * tick) ∧
      ds.map Prod.fst =
        ((List.range ins.length).map fun i : ℕ => nexttick + (i : ℚ) * tick) ∧
      List.Chain' (fun a b => a < b ∧ b = a + tick) (ds.map Prod.fst)) ∧
    (aggRun windows).map Prod.fst =
      ((List.range windows.length).map fun i : ℕ => t0 + (i : ℚ) * T) ∧
    List.Chain' (fun a b => a < b ∧ b = a + T) ((aggRun windows).map Prod.fst) := by
  obtain ⟨ds, h1, h2⟩ := goodRun_cycles selfname gd tick ins nexttick hgood
  have hagg := aggRun_tags windows hclean
  refine ⟨⟨ds, h1, h2, ?_⟩, ?_, ?_⟩
  · rw [h2]
    exact prog_chain nexttick tick (by linarith) ins.length
  · rw [hagg, hticks]
  · rw [hagg, hticks]
    exact prog_chain t0 T (by linarith) windows.length

/-- Witness for C9: a two-cycle run of one worker (tick 5, first
nexttick 5, reads succeeding well before each tick) and two clean
aggregator windows opening at ticks 5 and 10. -/
theorem C9_tick_spacing_w :
    (1 : ℚ) ≤ 5 ∧ GoodRun 5 5 [(1, 1, some 20), (6, 6, some 21)] ∧
    ((([((5, "a", 20), []), ((10, "a", 21), [])] :
        List (AggEvent × List AggEvent)).map (fun w => w.1.1)) =
      (List.range ([((5, "a", 20), []), ((10, "a", 21), [])] :
        List (AggEvent × List AggEvent)).length).map
          fun i : ℕ => 5 + (i : ℚ) * 5) ∧
    (∃ ds, runCycles "a" none 5 5 [(1, 1, some 20), (6, 6, some 21)] =
        .ok (ds, [], 5 + ([(1, 1, some 20), (6, 6, some 21)] :
          List (ℚ × ℚ × Option ℚ)).length * 5) ∧
      ds.map Prod.fst =
        ((List.range ([(1, 1, some 20), (6, 6, some 21)] :
          List (ℚ × ℚ × Option ℚ)).length).map fun i : ℕ => 5 + (i : ℚ) * 5) ∧
      List.Chain' (fun a b => a < b ∧ b = a + 5) (ds.map Prod.fst)) ∧
    (aggRun [((5, "a", 20), []), ((10, "a", 21), [])]).map Prod.fst =
      ((List.range ([((5, "a", 20), []), ((10, "a", 21), [])] :
        List (AggEvent × List AggEvent)).length).map
          fun i : ℕ => 5 + (i : ℚ) * 5) ∧
    List.Chain' (fun a b => a < b ∧ b = a + 5)
      ((aggRun [((5, "a", 20), []), ((10, "a", 21), [])]).map Prod.fst) := by
  have hgood : GoodRun 5 5 [((1:ℚ), (1:ℚ), some (20:ℚ)), (6, 6, some 21)] := by
    refine ⟨by norm_num, rfl, by norm_num, rfl, trivial⟩
  have hticks : (([((5, "a", 20), []), ((10, "a", 21), [])] :
      List (AggEvent × List AggEvent)).map (fun w => w.1.1)) =
      (List.range 2).map fun i : ℕ => 5 + (i : ℚ) * 5 := by
    simp [List.range_succ]
    norm_num
  have hclean : ∀ w ∈ ([((5, "a", 20), []), ((10, "a", 21), [])] :
      List (AggEvent × List AggEvent)),
      FillsClean w.1.1 (setRec emptyRecMap w.1.2.1 w.1.2.2) w.2 := by
    intro w hw
    simp only [List.mem_cons, List.not_mem_nil, or_false] at hw
    rcases hw with rfl | rfl <;> exact trivial
  exact ⟨by norm_num, hgood, hticks,
    C9_tick_spacing "a" none 5 5 [(1, 1, some 20), (6, 6, some 21)]
      [((5, "a", 20), []), ((10, "a", 21), [])] 5 5
      (by norm_num) hgood (by norm_num) hticks hclean⟩
